import Mathlib

/-!
Shallow embedding of the PaperTrading repository's core: the portfolio
ledger (`executeTrade`, `canTrade` in the main app component), the market
data hook (`fetchCryptoPrices` classification and state merge), and the
price-history chart buffer.  Quantities, prices and cash are modelled as
exact rationals; JS objects keyed by symbol are modelled as association
lists with JS-spread update semantics.
-/

namespace PaperTrading

/-- A position in the holdings mapping: `{ quantity, avgCost }` in the source. -/
structure Holding where
  quantity : ℚ
  avgCost : ℚ
deriving DecidableEq

/-- An entry of the `prices` map produced by the feed:
`{ price, change, type, tradeable, lastUpdate }` in the source (the
constant `type` tag and the display timestamp are omitted). -/
structure PriceData where
  price : ℚ
  change : ℚ
  tradeable : Bool
deriving DecidableEq

/-- Transaction kind tag: `'BUY'` / `'SELL'` strings in the source. -/
inductive TxType where
  | BUY
  | SELL
deriving DecidableEq

/-- A transaction-log record as built by `executeTrade`
(`{ id, type, symbol, quantity, price, total, timestamp }`; the wall-clock
`id` and `timestamp` fields are omitted). -/
structure Transaction where
  type : TxType
  symbol : String
  quantity : ℚ
  price : ℚ
  total : ℚ
deriving DecidableEq

/-- The ledger state held by `useStore`: balance, holdings, transactions. -/
structure Store where
  balance : ℚ
  holdings : List (String × Holding)
  transactions : List Transaction
deriving DecidableEq

/-- Association-list lookup, the JS `obj[key]` read (first binding wins;
JS objects never hold duplicate keys). -/
def lookupA {α : Type} : List (String × α) → String → Option α
  | [], _ => none
  | (k, v) :: rest, s => if k = s then some v else lookupA rest s

/-- Association-list update, the JS spread `{...prev, [key]: v}`: replaces
the binding in place when the key is present, appends it otherwise. -/
def updateA {α : Type} : List (String × α) → String → α → List (String × α)
  | [], s, v => [(s, v)]
  | (k, w) :: rest, s, v =>
    if k = s then (s, v) :: rest else (k, w) :: updateA rest s v

/-- Association-list deletion, the JS `delete obj[key]`. -/
def removeA {α : Type} : List (String × α) → String → List (String × α)
  | [], _ => []
  | (k, w) :: rest, s =>
    if k = s then removeA rest s else (k, w) :: removeA rest s

/-- The JS object spread merge `{...base, ...upd}`: every binding of `upd`
is written over `base` in order. -/
def mergeA {α : Type} (base upd : List (String × α)) : List (String × α) :=
  upd.foldl (fun acc kv => updateA acc kv.1 kv.2) base

/-- `canTrade` from the source: a symbol is tradeable iff the `prices`
map has an entry for it whose `tradeable` field is `true`. -/
def canTrade (prices : List (String × PriceData)) (s : String) : Bool :=
  match lookupA prices s with
  | none => false
  | some pd => pd.tradeable == true

/-- Outcome of an `executeTrade` call: a silent early `return`, an
`alert(...)` followed by `return`, or a completed trade. -/
inductive Outcome where
  | silent
  | alerted (msg : String)
  | success
deriving DecidableEq

def alertUntradeable : String := "Trading is currently unavailable for this symbol."

def alertInsufficientBalance : String := "Insufficient balance!"

def alertInsufficientHoldings : String := "Insufficient holdings!"

/-- `executeTrade` from the source, as a function of the trade type, the
parsed trade amount (`none` models `parseFloat` returning `NaN`), the
selected symbol, the current `prices` map and the store.  Mirrors the
source's guard order: quantity check, price presence/truthiness check,
`canTrade` check, then the buy/sell branch. -/
def executeTrade (ty : TxType) (tradeAmount : Option ℚ) (sym : String)
    (prices : List (String × PriceData)) (store : Store) : Store × Outcome :=
  match tradeAmount with
  | none => (store, Outcome.silent)
  | some quantity =>
    if quantity ≤ 0 then (store, Outcome.silent)
    else
      match lookupA prices sym with
      | none => (store, Outcome.silent)
      | some pd =>
        if pd.price = 0 then (store, Outcome.silent)
        else if canTrade prices sym = false then (store, Outcome.alerted alertUntradeable)
        else
          let cost := quantity * pd.price
          match ty with
          | TxType.BUY =>
            if cost > store.balance then (store, Outcome.alerted alertInsufficientBalance)
            else
              let newH : Holding :=
                match lookupA store.holdings sym with
                | some h =>
                  ⟨h.quantity + quantity,
                   (h.avgCost * h.quantity + cost) / (h.quantity + quantity)⟩
                | none => ⟨quantity, pd.price⟩
              (⟨store.balance - cost, updateA store.holdings sym newH,
                ⟨TxType.BUY, sym, quantity, pd.price, cost⟩ :: store.transactions⟩,
               Outcome.success)
          | TxType.SELL =>
            match lookupA store.holdings sym with
            | none => (store, Outcome.alerted alertInsufficientHoldings)
            | some h =>
              if h.quantity < quantity then (store, Outcome.alerted alertInsufficientHoldings)
              else if h.quantity = quantity then
                (⟨store.balance + cost, removeA store.holdings sym,
                  ⟨TxType.SELL, sym, quantity, pd.price, cost⟩ :: store.transactions⟩,
                 Outcome.success)
              else
                (⟨store.balance + cost,
                  updateA store.holdings sym ⟨h.quantity - quantity, h.avgCost⟩,
                  ⟨TxType.SELL, sym, quantity, pd.price, cost⟩ :: store.transactions⟩,
                 Outcome.success)

/-- One user-triggered `executeTrade` invocation, bundling the arguments
the component closes over. -/
structure TradeCmd where
  ty : TxType
  amount : Option ℚ
  symbol : String
  prices : List (String × PriceData)
deriving DecidableEq

/-- Folding a sequence of `executeTrade` calls over a store. -/
def runTrades (cmds : List TradeCmd) (s : Store) : Store :=
  cmds.foldl (fun st c => (executeTrade c.ty c.amount c.symbol c.prices st).1) s

/-- The freshly-created portfolio: `balance = 100000`, no holdings, no
transactions (signup in `AuthContext`). -/
def initStore : Store := ⟨100000, [], []⟩

theorem lookupA_mem {α : Type} {l : List (String × α)} {s : String} {v : α}
    (h : lookupA l s = some v) : (s, v) ∈ l := by
  induction l with
  | nil => simp [lookupA] at h
  | cons kv rest ih =>
    obtain ⟨k, w⟩ := kv
    by_cases hk : k = s
    · subst hk
      simp [lookupA] at h
      subst h
      exact List.mem_cons_self _ _
    · simp [lookupA, hk] at h
      exact List.mem_cons_of_mem _ (ih h)

theorem lookupA_updateA_self {α : Type} (l : List (String × α)) (s : String) (v : α) :
    lookupA (updateA l s v) s = some v := by
  induction l with
  | nil => simp [updateA, lookupA]
  | cons kv rest ih =>
    obtain ⟨k, w⟩ := kv
    by_cases hk : k = s
    · subst hk
      simp [updateA, lookupA]
    · simp [updateA, lookupA, hk, ih]

theorem lookupA_updateA_ne {α : Type} (l : List (String × α)) (s t : String) (v : α)
    (h : t ≠ s) : lookupA (updateA l s v) t = lookupA l t := by
  induction l with
  | nil => simp [updateA, lookupA, Ne.symm h]
  | cons kv rest ih =>
    obtain ⟨k, w⟩ := kv
    by_cases hk : k = s
    · rw [hk]
      simp [updateA, lookupA, Ne.symm h]
    · simp [updateA, lookupA, hk, ih]

theorem mem_updateA {α : Type} {l : List (String × α)} {s : String} {v : α} {e : String × α}
    (h : e ∈ updateA l s v) : e = (s, v) ∨ e ∈ l := by
  induction l with
  | nil =>
    simp [updateA] at h
    exact Or.inl h
  | cons kv rest ih =>
    obtain ⟨k, w⟩ := kv
    by_cases hk : k = s
    · subst hk
      simp [updateA] at h
      rcases h with h | h
      · exact Or.inl h
      · exact Or.inr (List.mem_cons_of_mem _ h)
    · simp [updateA, hk] at h
      rcases h with h | h
      · exact Or.inr (by simp [h])
      · rcases ih h with h' | h'
        · exact Or.inl h'
        · exact Or.inr (List.mem_cons_of_mem _ h')

theorem lookupA_removeA_self {α : Type} (l : List (String × α)) (s : String) :
    lookupA (removeA l s) s = none := by
  induction l with
  | nil => simp [removeA, lookupA]
  | cons kv rest ih =>
    obtain ⟨k, w⟩ := kv
    by_cases hk : k = s
    · simp [removeA, hk, ih]
    · simp [removeA, lookupA, hk, ih]

theorem lookupA_removeA_ne {α : Type} (l : List (String × α)) (s t : String)
    (h : t ≠ s) : lookupA (removeA l s) t = lookupA l t := by
  induction l with
  | nil => simp [removeA]
  | cons kv rest ih =>
    obtain ⟨k, w⟩ := kv
    by_cases hk : k = s
    · rw [hk]
      simp [removeA, lookupA, Ne.symm h, ih]
    · simp [removeA, lookupA, hk, ih]

theorem mem_removeA {α : Type} {l : List (String × α)} {s : String} {e : String × α}
    (h : e ∈ removeA l s) : e ∈ l := by
  induction l with
  | nil => simp [removeA] at h
  | cons kv rest ih =>
    obtain ⟨k, w⟩ := kv
    by_cases hk : k = s
    · simp [removeA, hk] at h
      exact List.mem_cons_of_mem _ (ih h)
    · simp [removeA, hk] at h
      rcases h with h | h
      · simp [h]
      · exact List.mem_cons_of_mem _ (ih h)

theorem mergeA_cons {α : Type} (b : List (String × α)) (k : String) (v : α)
    (u : List (String × α)) :
    mergeA b ((k, v) :: u) = mergeA (updateA b k v) u := rfl

theorem lookupA_mergeA_of_none {α : Type} (b u : List (String × α)) (s : String)
    (h : lookupA u s = none) : lookupA (mergeA b u) s = lookupA b s := by
  induction u generalizing b with
  | nil => rfl
  | cons kv rest ih =>
    obtain ⟨k, w⟩ := kv
    by_cases hk : k = s
    · subst hk
      simp [lookupA] at h
    · simp [lookupA, hk] at h
      rw [mergeA_cons, ih _ h, lookupA_updateA_ne _ _ _ _ (fun hh => hk hh.symm)]

theorem lookupA_mergeA_of_unique {α : Type} (b u : List (String × α)) (s : String) (v : α)
    (h : lookupA u s = some v) (huniq : ∀ w, (s, w) ∈ u → w = v) :
    lookupA (mergeA b u) s = some v := by
  induction u generalizing b with
  | nil => simp [lookupA] at h
  | cons kv rest ih =>
    obtain ⟨k, w⟩ := kv
    rw [mergeA_cons]
    by_cases hk : k = s
    · have hw : w = v := huniq w (by rw [hk]; exact List.mem_cons_self _ _)
      cases hrest : lookupA rest s with
      | none =>
        rw [lookupA_mergeA_of_none _ _ _ hrest, hk, lookupA_updateA_self, hw]
      | some w' =>
        have hw' : w' = v := huniq w' (List.mem_cons_of_mem _ (lookupA_mem hrest))
        exact ih (updateA b k w) (by rw [hrest, hw'])
          (fun x hx => huniq x (List.mem_cons_of_mem _ hx))
    · simp only [lookupA, hk, if_false] at h
      exact ih (updateA b k w) h (fun x hx => huniq x (List.mem_cons_of_mem _ hx))

theorem lookupA_mergeA_isSome {α : Type} (b u : List (String × α)) (s : String)
    (h : (lookupA u s).isSome = true) : (lookupA (mergeA b u) s).isSome = true := by
  induction u generalizing b with
  | nil => simp [lookupA] at h
  | cons kv rest ih =>
    obtain ⟨k, w⟩ := kv
    rw [mergeA_cons]
    by_cases hk : k = s
    · cases hrest : lookupA rest s with
      | none =>
        rw [lookupA_mergeA_of_none _ _ _ hrest, hk, lookupA_updateA_self]
        rfl
      | some w' =>
        exact ih (updateA b k w) (by simp [hrest])
    · simp only [lookupA, hk, if_false] at h
      exact ih (updateA b k w) h

theorem mem_mergeA {α : Type} {b u : List (String × α)} {e : String × α}
    (h : e ∈ mergeA b u) : e ∈ b ∨ e ∈ u := by
  induction u generalizing b with
  | nil => exact Or.inl h
  | cons kv rest ih =>
    obtain ⟨k, w⟩ := kv
    rw [mergeA_cons] at h
    rcases ih h with h' | h'
    · rcases mem_updateA h' with h'' | h''
      · exact Or.inr (by simp [h''])
      · exact Or.inl h''
    · exact Or.inr (List.mem_cons_of_mem _ h')

theorem removeA_of_lookupA_none {α : Type} (l : List (String × α)) (s : String)
    (h : lookupA l s = none) : removeA l s = l := by
  induction l with
  | nil => rfl
  | cons kv rest ih =>
    obtain ⟨k, w⟩ := kv
    by_cases hk : k = s
    · subst hk
      simp [lookupA] at h
    · simp [lookupA, hk] at h
      simp [removeA, hk, ih h]

theorem canTrade_eq_true {prices : List (String × PriceData)} {sym : String}
    {pd : PriceData} (hpd : lookupA prices sym = some pd) (ht : pd.tradeable = true) :
    canTrade prices sym = true := by
  simp [canTrade, hpd, ht]

theorem executeTrade_buy_eq (st : Store) (q : ℚ) (sym : String)
    (prices : List (String × PriceData)) (pd : PriceData)
    (hq : 0 < q) (hpd : lookupA prices sym = some pd) (hp : pd.price ≠ 0)
    (ht : pd.tradeable = true) (hcash : q * pd.price ≤ st.balance) :
    executeTrade TxType.BUY (some q) sym prices st =
      (⟨st.balance - q * pd.price,
        updateA st.holdings sym
          (match lookupA st.holdings sym with
           | some h =>
             ⟨h.quantity + q, (h.avgCost * h.quantity + q * pd.price) / (h.quantity + q)⟩
           | none => ⟨q, pd.price⟩),
        ⟨TxType.BUY, sym, q, pd.price, q * pd.price⟩ :: st.transactions⟩,
       Outcome.success) := by
  have h1 : ¬ q ≤ 0 := not_le.mpr hq
  have h2 := canTrade_eq_true hpd ht
  have h3 : ¬ (q * pd.price > st.balance) := not_lt.mpr hcash
  simp only [executeTrade, hpd, h1, if_false, h2, hp, ite_false, h3, gt_iff_lt, not_lt]
  simp [h1, hp, h3]

theorem executeTrade_buy_insufficient (st : Store) (q : ℚ) (sym : String)
    (prices : List (String × PriceData)) (pd : PriceData)
    (hq : 0 < q) (hpd : lookupA prices sym = some pd) (hp : pd.price ≠ 0)
    (ht : pd.tradeable = true) (hcash : st.balance < q * pd.price) :
    executeTrade TxType.BUY (some q) sym prices st =
      (st, Outcome.alerted alertInsufficientBalance) := by
  have h1 : ¬ q ≤ 0 := not_le.mpr hq
  have h2 := canTrade_eq_true hpd ht
  simp only [executeTrade, hpd]
  simp [h1, hp, h2, hcash]

theorem executeTrade_sell_insufficient (st : Store) (q : ℚ) (sym : String)
    (prices : List (String × PriceData)) (pd : PriceData)
    (hq : 0 < q) (hpd : lookupA prices sym = some pd) (hp : pd.price ≠ 0)
    (ht : pd.tradeable = true)
    (hins : ∀ h : Holding, lookupA st.holdings sym = some h → h.quantity < q) :
    executeTrade TxType.SELL (some q) sym prices st =
      (st, Outcome.alerted alertInsufficientHoldings) := by
  have h1 : ¬ q ≤ 0 := not_le.mpr hq
  have h2 := canTrade_eq_true hpd ht
  simp only [executeTrade, hpd]
  cases hh : lookupA st.holdings sym with
  | none => simp [h1, hp, h2, hh]
  | some h => simp [h1, hp, h2, hh, hins h hh]

theorem executeTrade_sell_remove_eq (st : Store) (q : ℚ) (sym : String)
    (prices : List (String × PriceData)) (pd : PriceData) (h : Holding)
    (hq : 0 < q) (hpd : lookupA prices sym = some pd) (hp : pd.price ≠ 0)
    (ht : pd.tradeable = true) (hh : lookupA st.holdings sym = some h)
    (heq : h.quantity = q) :
    executeTrade TxType.SELL (some q) sym prices st =
      (⟨st.balance + q * pd.price, removeA st.holdings sym,
        ⟨TxType.SELL, sym, q, pd.price, q * pd.price⟩ :: st.transactions⟩,
       Outcome.success) := by
  have h1 : ¬ q ≤ 0 := not_le.mpr hq
  have h2 := canTrade_eq_true hpd ht
  have h4 : ¬ h.quantity < q := not_lt.mpr (le_of_eq heq.symm)
  simp only [executeTrade, hpd]
  simp [h1, hp, h2, hh, h4, heq]

theorem executeTrade_sell_update_eq (st : Store) (q : ℚ) (sym : String)
    (prices : List (String × PriceData)) (pd : PriceData) (h : Holding)
    (hq : 0 < q) (hpd : lookupA prices sym = some pd) (hp : pd.price ≠ 0)
    (ht : pd.tradeable = true) (hh : lookupA st.holdings sym = some h)
    (hlt : q < h.quantity) :
    executeTrade TxType.SELL (some q) sym prices st =
      (⟨st.balance + q * pd.price,
        updateA st.holdings sym ⟨h.quantity - q, h.avgCost⟩,
        ⟨TxType.SELL, sym, q, pd.price, q * pd.price⟩ :: st.transactions⟩,
       Outcome.success) := by
  have h1 : ¬ q ≤ 0 := not_le.mpr hq
  have h2 := canTrade_eq_true hpd ht
  have h4 : ¬ h.quantity < q := not_lt.mpr (le_of_lt hlt)
  have h5 : h.quantity ≠ q := ne_of_gt hlt
  simp only [executeTrade, hpd]
  simp [h1, hp, h2, hh, h4, h5]

/-- C2: a successful buy of `q` at price `p` with no existing holding sets
`averageCost` to exactly `p`; with an existing holding `(q1, a)` the new
average cost is `((a*q1) + q*p) / (q1 + q)`; and two buys `q1@p1`, `q2@p2`
from an empty position yield the weighted average
`(q1*p1 + q2*p2) / (q1 + q2)` exactly (the rational model is exact, which
implies the claim's floating-tolerance form). -/
theorem c2_buy_average_cost (st : Store) (q : ℚ) (sym : String)
    (prices : List (String × PriceData)) (pd : PriceData)
    (hq : 0 < q) (hpd : lookupA prices sym = some pd) (hp : pd.price ≠ 0)
    (ht : pd.tradeable = true) (hcash : q * pd.price ≤ st.balance) :
    (lookupA st.holdings sym = none →
      lookupA (executeTrade TxType.BUY (some q) sym prices st).1.holdings sym
        = some ⟨q, pd.price⟩) ∧
    (∀ h : Holding, lookupA st.holdings sym = some h →
      lookupA (executeTrade TxType.BUY (some q) sym prices st).1.holdings sym
        = some ⟨h.quantity + q,
            (h.avgCost * h.quantity + q * pd.price) / (h.quantity + q)⟩) ∧
    (∀ (q2 : ℚ) (prices2 : List (String × PriceData)) (pd2 : PriceData),
      0 < q2 → lookupA prices2 sym = some pd2 → pd2.price ≠ 0 →
      pd2.tradeable = true →
      q2 * pd2.price ≤ st.balance - q * pd.price →
      lookupA st.holdings sym = none →
      lookupA (runTrades
          [⟨TxType.BUY, some q, sym, prices⟩, ⟨TxType.BUY, some q2, sym, prices2⟩]
          st).holdings sym
        = some ⟨q + q2, (q * pd.price + q2 * pd2.price) / (q + q2)⟩) := by
  refine ⟨?_, ?_, ?_⟩
  · intro hnone
    rw [executeTrade_buy_eq st q sym prices pd hq hpd hp ht hcash, hnone]
    exact lookupA_updateA_self _ _ _
  · intro h hh
    rw [executeTrade_buy_eq st q sym prices pd hq hpd hp ht hcash, hh]
    exact lookupA_updateA_self _ _ _
  · intro q2 prices2 pd2 hq2 hpd2 hp2 ht2 hcash2 hnone
    have e1 := executeTrade_buy_eq st q sym prices pd hq hpd hp ht hcash
    have hrun : runTrades
        [⟨TxType.BUY, some q, sym, prices⟩, ⟨TxType.BUY, some q2, sym, prices2⟩] st
        = (executeTrade TxType.BUY (some q2) sym prices2
            (executeTrade TxType.BUY (some q) sym prices st).1).1 := rfl
    rw [hrun, e1]
    set st1 : Store :=
      ⟨st.balance - q * pd.price,
        updateA st.holdings sym
          (match lookupA st.holdings sym with
           | some h =>
             ⟨h.quantity + q, (h.avgCost * h.quantity + q * pd.price) / (h.quantity + q)⟩
           | none => ⟨q, pd.price⟩),
        ⟨TxType.BUY, sym, q, pd.price, q * pd.price⟩ :: st.transactions⟩ with hst1
    have hb1 : st1.balance = st.balance - q * pd.price := by rw [hst1]
    have hh1 : lookupA st1.holdings sym = some ⟨q, pd.price⟩ := by
      rw [hst1]
      show lookupA (updateA st.holdings sym _) sym = _
      rw [hnone]
      exact lookupA_updateA_self _ _ _
    have e2 := executeTrade_buy_eq st1 q2 sym prices2 pd2 hq2 hpd2 hp2 ht2
      (by rw [hb1]; exact hcash2)
    rw [e2, hh1]
    show lookupA (updateA st1.holdings sym _) sym = _
    rw [lookupA_updateA_self]
    show some (⟨q + q2, (pd.price * q + q2 * pd2.price) / (q + q2)⟩ : Holding) = _
    rw [mul_comm pd.price q]

/-- Witness for `c2_buy_average_cost` at concrete inputs: buy 1 BTC at
50000, then 1 BTC at 70000, from an empty portfolio; the resulting average
cost is the weighted mean 60000. -/
theorem c2_buy_average_cost_witness :
    (0 : ℚ) < 1 ∧
    lookupA [(("BTC"), (⟨50000, 0, true⟩ : PriceData))] ("BTC")
      = some ⟨50000, 0, true⟩ ∧
    ((⟨50000, 0, true⟩ : PriceData).price ≠ 0) ∧
    ((⟨50000, 0, true⟩ : PriceData).tradeable = true) ∧
    ((1 : ℚ) * (⟨50000, 0, true⟩ : PriceData).price ≤ initStore.balance) ∧
    lookupA (runTrades
        [⟨TxType.BUY, some 1, ("BTC"), [(("BTC"), ⟨50000, 0, true⟩)]⟩,
         ⟨TxType.BUY, some 1, ("BTC"), [(("BTC"), ⟨40000, 0, true⟩)]⟩]
        initStore).holdings ("BTC")
      = some ⟨1 + 1,
          (1 * (⟨50000, 0, true⟩ : PriceData).price
            + 1 * (⟨40000, 0, true⟩ : PriceData).price) / (1 + 1)⟩ :=
  ⟨by norm_num, by norm_num [lookupA], by norm_num, rfl, by norm_num [initStore],
   (c2_buy_average_cost initStore 1 ("BTC") [(("BTC"), ⟨50000, 0, true⟩)]
       ⟨50000, 0, true⟩ (by norm_num) (by norm_num [lookupA]) (by norm_num) rfl
       (by norm_num [initStore])).2.2
     1 [(("BTC"), ⟨40000, 0, true⟩)] ⟨40000, 0, true⟩
     (by norm_num) (by norm_num [lookupA]) (by norm_num) rfl
     (by norm_num [initStore]) (by norm_num [initStore, lookupA])⟩

/-- C3: with the call otherwise valid (positive quantity, priced tradeable
symbol), selling more than held — or selling with no holding — alerts
"Insufficient holdings!" and returns the store unchanged, and buying with
`quantity*price` exceeding cash alerts "Insufficient balance!" and returns
the store unchanged: cash, holdings and the transaction log are all
untouched. -/
theorem c3_failures_leave_state_unchanged (st : Store) (q : ℚ) (sym : String)
    (prices : List (String × PriceData)) (pd : PriceData)
    (hq : 0 < q) (hpd : lookupA prices sym = some pd) (hp : pd.price ≠ 0)
    (ht : pd.tradeable = true) :
    ((∀ h : Holding, lookupA st.holdings sym = some h → h.quantity < q) →
      executeTrade TxType.SELL (some q) sym prices st
        = (st, Outcome.alerted alertInsufficientHoldings)) ∧
    (st.balance < q * pd.price →
      executeTrade TxType.BUY (some q) sym prices st
        = (st, Outcome.alerted alertInsufficientBalance)) :=
  ⟨fun hins => executeTrade_sell_insufficient st q sym prices pd hq hpd hp ht hins,
   fun hcash => executeTrade_buy_insufficient st q sym prices pd hq hpd hp ht hcash⟩

/-- Witness for `c3_failures_leave_state_unchanged`: selling 1 BTC from the
fresh (empty) portfolio and buying 1 BTC at a price above the starting
cash both fail with the corresponding alert, without touching the store. -/
theorem c3_failures_witness :
    (0 : ℚ) < 1 ∧
    lookupA [(("BTC"), (⟨200000, 0, true⟩ : PriceData))] ("BTC")
      = some ⟨200000, 0, true⟩ ∧
    ((⟨200000, 0, true⟩ : PriceData).price ≠ 0) ∧
    ((⟨200000, 0, true⟩ : PriceData).tradeable = true) ∧
    executeTrade TxType.SELL (some 1) ("BTC")
        [(("BTC"), ⟨200000, 0, true⟩)] initStore
      = (initStore, Outcome.alerted alertInsufficientHoldings) ∧
    executeTrade TxType.BUY (some 1) ("BTC")
        [(("BTC"), ⟨200000, 0, true⟩)] initStore
      = (initStore, Outcome.alerted alertInsufficientBalance) :=
  ⟨by norm_num, by norm_num [lookupA], by norm_num, rfl,
   (c3_failures_leave_state_unchanged initStore 1 ("BTC")
       [(("BTC"), ⟨200000, 0, true⟩)] ⟨200000, 0, true⟩
       (by norm_num) (by norm_num [lookupA]) (by norm_num) rfl).1
     (by intro h hh; simp [initStore, lookupA] at hh),
   (c3_failures_leave_state_unchanged initStore 1 ("BTC")
       [(("BTC"), ⟨200000, 0, true⟩)] ⟨200000, 0, true⟩
       (by norm_num) (by norm_num [lookupA]) (by norm_num) rfl).2
     (by norm_num [initStore])⟩

/-- C4: a successful sell of `q` at price `p` completes, increases cash by
exactly `q*p`, removes the symbol entirely when the whole position is sold
(`h.quantity = q`), otherwise only decreases the quantity and keeps the
average cost, and leaves every other symbol's holding unchanged. -/
theorem c4_sell_effects (st : Store) (q : ℚ) (sym : String)
    (prices : List (String × PriceData)) (pd : PriceData) (h : Holding)
    (hq : 0 < q) (hpd : lookupA prices sym = some pd) (hp : pd.price ≠ 0)
    (ht : pd.tradeable = true) (hh : lookupA st.holdings sym = some h)
    (hge : q ≤ h.quantity) :
    ((executeTrade TxType.SELL (some q) sym prices st).2 = Outcome.success) ∧
    ((executeTrade TxType.SELL (some q) sym prices st).1.balance
      = st.balance + q * pd.price) ∧
    (h.quantity = q →
      lookupA (executeTrade TxType.SELL (some q) sym prices st).1.holdings sym = none) ∧
    (q < h.quantity →
      lookupA (executeTrade TxType.SELL (some q) sym prices st).1.holdings sym
        = some ⟨h.quantity - q, h.avgCost⟩) ∧
    (∀ t : String, t ≠ sym →
      lookupA (executeTrade TxType.SELL (some q) sym prices st).1.holdings t
        = lookupA st.holdings t) := by
  rcases lt_or_eq_of_le hge with hlt | heq
  · have e := executeTrade_sell_update_eq st q sym prices pd h hq hpd hp ht hh hlt
    refine ⟨by rw [e], by rw [e], ?_, ?_, ?_⟩
    · intro habs
      exact absurd habs (ne_of_gt hlt)
    · intro _
      rw [e]
      exact lookupA_updateA_self _ _ _
    · intro t hts
      rw [e]
      exact lookupA_updateA_ne _ _ _ _ hts
  · have e := executeTrade_sell_remove_eq st q sym prices pd h hq hpd hp ht hh heq.symm
    refine ⟨by rw [e], by rw [e], ?_, ?_, ?_⟩
    · intro _
      rw [e]
      exact lookupA_removeA_self _ _
    · intro habs
      rw [heq] at habs
      exact absurd habs (lt_irrefl _)
    · intro t hts
      rw [e]
      exact lookupA_removeA_ne _ _ _ hts

/-- Witness for `c4_sell_effects`: sell 1 of a 2-BTC position at 80000
from a store holding 2 BTC at average cost 60000: the trade succeeds, cash
rises by 80000, the position drops to 1 BTC at the unchanged average cost
60000, and an unrelated symbol's (absent) holding is untouched. -/
theorem c4_sell_effects_witness :
    (0 : ℚ) < 1 ∧
    lookupA [(("BTC"), (⟨80000, 0, true⟩ : PriceData))] ("BTC")
      = some ⟨80000, 0, true⟩ ∧
    ((⟨80000, 0, true⟩ : PriceData).price ≠ 0) ∧
    ((⟨80000, 0, true⟩ : PriceData).tradeable = true) ∧
    lookupA (⟨50000, [(("BTC"), ⟨2, 60000⟩)], []⟩ : Store).holdings ("BTC")
      = some ⟨2, 60000⟩ ∧
    ((1 : ℚ) ≤ (⟨2, 60000⟩ : Holding).quantity) ∧
    ((executeTrade TxType.SELL (some 1) ("BTC") [(("BTC"), ⟨80000, 0, true⟩)]
        (⟨50000, [(("BTC"), ⟨2, 60000⟩)], []⟩ : Store)).2 = Outcome.success) ∧
    ((executeTrade TxType.SELL (some 1) ("BTC") [(("BTC"), ⟨80000, 0, true⟩)]
        (⟨50000, [(("BTC"), ⟨2, 60000⟩)], []⟩ : Store)).1.balance
      = (⟨50000, [(("BTC"), ⟨2, 60000⟩)], []⟩ : Store).balance
          + 1 * (⟨80000, 0, true⟩ : PriceData).price) ∧
    (lookupA (executeTrade TxType.SELL (some 1) ("BTC") [(("BTC"), ⟨80000, 0, true⟩)]
        (⟨50000, [(("BTC"), ⟨2, 60000⟩)], []⟩ : Store)).1.holdings ("BTC")
      = some ⟨(⟨2, 60000⟩ : Holding).quantity - 1, (⟨2, 60000⟩ : Holding).avgCost⟩) ∧
    (lookupA (executeTrade TxType.SELL (some 1) ("BTC") [(("BTC"), ⟨80000, 0, true⟩)]
        (⟨50000, [(("BTC"), ⟨2, 60000⟩)], []⟩ : Store)).1.holdings ("ETH")
      = lookupA (⟨50000, [(("BTC"), ⟨2, 60000⟩)], []⟩ : Store).holdings ("ETH")) :=
  ⟨by norm_num, by norm_num [lookupA], by norm_num, rfl, by norm_num [lookupA],
   by norm_num,
   (c4_sell_effects (⟨50000, [(("BTC"), ⟨2, 60000⟩)], []⟩ : Store) 1 ("BTC")
       [(("BTC"), ⟨80000, 0, true⟩)] ⟨80000, 0, true⟩ ⟨2, 60000⟩
       (by norm_num) (by norm_num [lookupA]) (by norm_num) rfl
       (by norm_num [lookupA]) (by norm_num)).1,
   (c4_sell_effects (⟨50000, [(("BTC"), ⟨2, 60000⟩)], []⟩ : Store) 1 ("BTC")
       [(("BTC"), ⟨80000, 0, true⟩)] ⟨80000, 0, true⟩ ⟨2, 60000⟩
       (by norm_num) (by norm_num [lookupA]) (by norm_num) rfl
       (by norm_num [lookupA]) (by norm_num)).2.1,
   (c4_sell_effects (⟨50000, [(("BTC"), ⟨2, 60000⟩)], []⟩ : Store) 1 ("BTC")
       [(("BTC"), ⟨80000, 0, true⟩)] ⟨80000, 0, true⟩ ⟨2, 60000⟩
       (by norm_num) (by norm_num [lookupA]) (by norm_num) rfl
       (by norm_num [lookupA]) (by norm_num)).2.2.2.1 (by norm_num),
   (c4_sell_effects (⟨50000, [(("BTC"), ⟨2, 60000⟩)], []⟩ : Store) 1 ("BTC")
       [(("BTC"), ⟨80000, 0, true⟩)] ⟨80000, 0, true⟩ ⟨2, 60000⟩
       (by norm_num) (by norm_num [lookupA]) (by norm_num) rfl
       (by norm_num [lookupA]) (by norm_num)).2.2.2.2 ("ETH") (by decide)⟩

theorem executeTrade_amount_none (ty : TxType) (sym : String)
    (prices : List (String × PriceData)) (st : Store) :
    executeTrade ty none sym prices st = (st, Outcome.silent) := rfl

theorem executeTrade_amount_nonpos (ty : TxType) (sym : String)
    (prices : List (String × PriceData)) (st : Store) (q : ℚ) (hq : q ≤ 0) :
    executeTrade ty (some q) sym prices st = (st, Outcome.silent) := by
  simp [executeTrade, hq]

theorem executeTrade_price_missing (ty : TxType) (sym : String)
    (prices : List (String × PriceData)) (st : Store) (q : ℚ) (hq : 0 < q)
    (hpd : lookupA prices sym = none) :
    executeTrade ty (some q) sym prices st = (st, Outcome.silent) := by
  simp [executeTrade, not_le.mpr hq, hpd]

theorem executeTrade_price_zero (ty : TxType) (sym : String)
    (prices : List (String × PriceData)) (st : Store) (q : ℚ) (pd : PriceData)
    (hq : 0 < q) (hpd : lookupA prices sym = some pd) (h0 : pd.price = 0) :
    executeTrade ty (some q) sym prices st = (st, Outcome.silent) := by
  simp [executeTrade, not_le.mpr hq, hpd, h0]

theorem executeTrade_untradeable (ty : TxType) (sym : String)
    (prices : List (String × PriceData)) (st : Store) (q : ℚ) (pd : PriceData)
    (hq : 0 < q) (hpd : lookupA prices sym = some pd) (hp : pd.price ≠ 0)
    (htf : pd.tradeable = false) :
    executeTrade ty (some q) sym prices st = (st, Outcome.alerted alertUntradeable) := by
  have hct : canTrade prices sym = false := by simp [canTrade, hpd, htf]
  simp [executeTrade, not_le.mpr hq, hpd, hp, hct]

/-- A ledger state satisfying the spec's standing invariant: non-negative
cash and strictly positive quantity for every listed holding. -/
def validState (st : Store) : Prop :=
  0 ≤ st.balance ∧ ∀ e ∈ st.holdings, 0 < (Prod.snd e).quantity

/-- A quote map all of whose prices are non-negative (the spec's Quote
data model allows only positively priced quotes). -/
def goodPrices (l : List (String × PriceData)) : Prop :=
  ∀ e ∈ l, 0 ≤ (Prod.snd e).price

theorem validState_step (ty : TxType) (amt : Option ℚ) (sym : String)
    (prices : List (String × PriceData)) (st : Store)
    (hv : validState st) (hg : goodPrices prices) :
    validState (executeTrade ty amt sym prices st).1 := by
  obtain ⟨hb, hh⟩ := hv
  cases amt with
  | none => rw [executeTrade_amount_none]; exact ⟨hb, hh⟩
  | some q =>
    by_cases hq0 : q ≤ 0
    · rw [executeTrade_amount_nonpos ty sym prices st q hq0]; exact ⟨hb, hh⟩
    have hq : 0 < q := not_le.mp hq0
    cases hpd : lookupA prices sym with
    | none => rw [executeTrade_price_missing ty sym prices st q hq hpd]; exact ⟨hb, hh⟩
    | some pd =>
      by_cases hp0 : pd.price = 0
      · rw [executeTrade_price_zero ty sym prices st q pd hq hpd hp0]; exact ⟨hb, hh⟩
      have hpp : 0 ≤ pd.price := hg _ (lookupA_mem hpd)
      cases htb : pd.tradeable with
      | false =>
        rw [executeTrade_untradeable ty sym prices st q pd hq hpd hp0 htb]
        exact ⟨hb, hh⟩
      | true =>
        cases ty with
        | BUY =>
          by_cases hc : st.balance < q * pd.price
          · rw [executeTrade_buy_insufficient st q sym prices pd hq hpd hp0 htb hc]
            exact ⟨hb, hh⟩
          · have hcash : q * pd.price ≤ st.balance := not_lt.mp hc
            rw [executeTrade_buy_eq st q sym prices pd hq hpd hp0 htb hcash]
            constructor
            · exact sub_nonneg.mpr hcash
            · intro e he
              rcases mem_updateA he with he' | he'
              · rw [he']
                cases hold : lookupA st.holdings sym with
                | none => simpa using hq
                | some h =>
                  have : 0 < h.quantity := hh _ (lookupA_mem hold)
                  simpa using add_pos this hq
              · exact hh _ he'
        | SELL =>
          cases hold : lookupA st.holdings sym with
          | none =>
            rw [executeTrade_sell_insufficient st q sym prices pd hq hpd hp0 htb
              (fun h hh' => by rw [hold] at hh'; exact absurd hh' (by simp))]
            exact ⟨hb, hh⟩
          | some h =>
            by_cases hlt : h.quantity < q
            · rw [executeTrade_sell_insufficient st q sym prices pd hq hpd hp0 htb
                (fun h' hh' => by rw [hold] at hh'; injection hh' with e; exact e ▸ hlt)]
              exact ⟨hb, hh⟩
            · by_cases heqq : h.quantity = q
              · rw [executeTrade_sell_remove_eq st q sym prices pd h hq hpd hp0 htb hold heqq]
                constructor
                · have : 0 ≤ q * pd.price := mul_nonneg (le_of_lt hq) hpp
                  exact add_nonneg hb this
                · intro e he
                  exact hh _ (mem_removeA he)
              · have hgt : q < h.quantity := lt_of_le_of_ne (not_lt.mp hlt) (fun e => heqq e.symm)
                rw [executeTrade_sell_update_eq st q sym prices pd h hq hpd hp0 htb hold hgt]
                constructor
                · have : 0 ≤ q * pd.price := mul_nonneg (le_of_lt hq) hpp
                  exact add_nonneg hb this
                · intro e he
                  rcases mem_updateA he with he' | he'
                  · rw [he']
                    simpa using sub_pos.mpr hgt
                  · exact hh _ he'

theorem validState_runTrades (cmds : List TradeCmd) (st : Store)
    (hv : validState st) (hg : ∀ c ∈ cmds, goodPrices c.prices) :
    validState (runTrades cmds st) := by
  induction cmds generalizing st with
  | nil => exact hv
  | cons c rest ih =>
    have h1 : validState (executeTrade c.ty c.amount c.symbol c.prices st).1 :=
      validState_step c.ty c.amount c.symbol c.prices st hv
        (hg c (List.mem_cons_self _ _))
    exact ih _ h1 (fun d hd => hg d (List.mem_cons_of_mem _ hd))

/-- C1: starting from the initial portfolio (cash 100000, no holdings),
any sequence of `executeTrade` calls whose quote maps carry non-negative
prices (the spec's Quote model) keeps cash non-negative and keeps every
listed holding's quantity strictly positive — in particular a holding
whose quantity reaches zero is deleted rather than kept at zero. -/
theorem c1_ledger_invariants (cmds : List TradeCmd)
    (hg : ∀ c ∈ cmds, goodPrices c.prices) :
    0 ≤ (runTrades cmds initStore).balance ∧
    ∀ e ∈ (runTrades cmds initStore).holdings, 0 < (Prod.snd e).quantity :=
  validState_runTrades cmds initStore
    (by constructor
        · norm_num [initStore]
        · intro e he
          simp [initStore] at he)
    hg

/-- Witness for `c1_ledger_invariants`: a concrete buy-then-sell-all
session keeps the invariant. -/
theorem c1_ledger_invariants_witness :
    (∀ c ∈ [(⟨TxType.BUY, some 1, ("BTC"), [(("BTC"), ⟨50000, 0, true⟩)]⟩ : TradeCmd),
            ⟨TxType.SELL, some 1, ("BTC"), [(("BTC"), ⟨80000, 0, true⟩)]⟩],
        goodPrices c.prices) ∧
    (0 ≤ (runTrades
        [(⟨TxType.BUY, some 1, ("BTC"), [(("BTC"), ⟨50000, 0, true⟩)]⟩ : TradeCmd),
         ⟨TxType.SELL, some 1, ("BTC"), [(("BTC"), ⟨80000, 0, true⟩)]⟩]
        initStore).balance ∧
     ∀ e ∈ (runTrades
        [(⟨TxType.BUY, some 1, ("BTC"), [(("BTC"), ⟨50000, 0, true⟩)]⟩ : TradeCmd),
         ⟨TxType.SELL, some 1, ("BTC"), [(("BTC"), ⟨80000, 0, true⟩)]⟩]
        initStore).holdings, 0 < (Prod.snd e).quantity) :=
  ⟨by intro c hc
      simp [goodPrices] at hc ⊢
      rcases hc with h | h <;> subst h <;> norm_num,
   c1_ledger_invariants _
     (by intro c hc
         simp [goodPrices] at hc ⊢
         rcases hc with h | h <;> subst h <;> norm_num)⟩

/-- The cost basis carried by the holdings mapping: the sum over holdings
of `quantity * avgCost`. -/
def hsum : List (String × Holding) → ℚ
  | [] => 0
  | (_, h) :: rest => h.quantity * h.avgCost + hsum rest

theorem lookupA_eq_none_of_not_mem_keys {α : Type} {l : List (String × α)} {s : String}
    (h : s ∉ l.map Prod.fst) : lookupA l s = none := by
  induction l with
  | nil => rfl
  | cons kv rest ih =>
    obtain ⟨k, w⟩ := kv
    have hk : s ≠ k := fun e => h (by rw [List.map_cons]; exact e ▸ List.mem_cons_self _ _)
    have hrest : s ∉ rest.map Prod.fst :=
      fun hm => h (by rw [List.map_cons]; exact List.mem_cons_of_mem _ hm)
    simp [lookupA, Ne.symm hk, ih hrest]

theorem hsum_updateA_some {l : List (String × Holding)} {s : String} {v : Holding}
    (h : lookupA l s = some v) (w : Holding) :
    hsum (updateA l s w) = hsum l - v.quantity * v.avgCost + w.quantity * w.avgCost := by
  induction l with
  | nil => simp [lookupA] at h
  | cons kv rest ih =>
    obtain ⟨k, u⟩ := kv
    by_cases hk : k = s
    · simp [lookupA, hk] at h
      simp [updateA, hk, hsum, h]
      ring
    · simp [lookupA, hk] at h
      simp [updateA, hk, hsum, ih h]
      ring

theorem hsum_updateA_none {l : List (String × Holding)} {s : String}
    (h : lookupA l s = none) (w : Holding) :
    hsum (updateA l s w) = hsum l + w.quantity * w.avgCost := by
  induction l with
  | nil => simp [updateA, hsum]
  | cons kv rest ih =>
    obtain ⟨k, u⟩ := kv
    by_cases hk : k = s
    · simp [lookupA, hk] at h
    · simp [lookupA, hk] at h
      simp [updateA, hk, hsum, ih h]
      ring

theorem hsum_removeA {l : List (String × Holding)} {s : String} {v : Holding}
    (hnd : (l.map Prod.fst).Nodup) (h : lookupA l s = some v) :
    hsum (removeA l s) = hsum l - v.quantity * v.avgCost := by
  induction l with
  | nil => simp [lookupA] at h
  | cons kv rest ih =>
    obtain ⟨k, u⟩ := kv
    rw [List.map_cons] at hnd
    have hnd1 : k ∉ rest.map Prod.fst := (List.nodup_cons.mp hnd).1
    have hnd2 : (rest.map Prod.fst).Nodup := (List.nodup_cons.mp hnd).2
    by_cases hk : k = s
    · simp [lookupA, hk] at h
      have hrest : lookupA rest s = none :=
        lookupA_eq_none_of_not_mem_keys (by rw [← hk]; exact hnd1)
      rw [removeA, if_pos hk, removeA_of_lookupA_none _ _ hrest]
      simp [hsum, h]
    · simp [lookupA, hk] at h
      rw [removeA, if_neg hk]
      simp [hsum, ih hnd2 h]
      ring

/-- C5 counterexample: from the initial portfolio, buy 1 BTC at 50000 and
then sell it at 80000.  No cash was invested or withdrawn other than the
initial 100000, yet `cash + Σ quantity*averageCost` ends at 130000: a sell
at a price different from the average cost changes the quantity, so it is
not equal to cumulative cash invested minus cumulative cash withdrawn. -/
theorem c5_conservation_counterexample :
    (runTrades
        [(⟨TxType.BUY, some 1, ("BTC"), [(("BTC"), ⟨50000, 0, true⟩)]⟩ : TradeCmd),
         ⟨TxType.SELL, some 1, ("BTC"), [(("BTC"), ⟨80000, 0, true⟩)]⟩]
        initStore).balance
      + hsum (runTrades
        [(⟨TxType.BUY, some 1, ("BTC"), [(("BTC"), ⟨50000, 0, true⟩)]⟩ : TradeCmd),
         ⟨TxType.SELL, some 1, ("BTC"), [(("BTC"), ⟨80000, 0, true⟩)]⟩]
        initStore).holdings ≠ 100000 := by
  norm_num [runTrades, executeTrade, initStore, lookupA, canTrade, updateA, removeA, hsum]

/-- C5 amended: per successful trade, `cash + Σ quantity*averageCost` is
exactly preserved by a buy (the symmetric cash/holding exchange), while a
successful sell of `q` at price `p` against average cost `a` changes it by
exactly the realized gain `q*(p - a)`; so the quantity equals the initial
100000 plus cumulative realized gains, not invested-minus-withdrawn. -/
theorem c5_conservation_amended (st : Store) (q : ℚ) (sym : String)
    (prices : List (String × PriceData)) (pd : PriceData)
    (hq : 0 < q) (hpd : lookupA prices sym = some pd) (hp : pd.price ≠ 0)
    (ht : pd.tradeable = true) :
    (q * pd.price ≤ st.balance →
      (∀ v : Holding, lookupA st.holdings sym = some v → 0 ≤ v.quantity) →
      (executeTrade TxType.BUY (some q) sym prices st).1.balance
        + hsum (executeTrade TxType.BUY (some q) sym prices st).1.holdings
        = st.balance + hsum st.holdings) ∧
    (∀ h : Holding, lookupA st.holdings sym = some h → q ≤ h.quantity →
      (st.holdings.map Prod.fst).Nodup →
      (executeTrade TxType.SELL (some q) sym prices st).1.balance
        + hsum (executeTrade TxType.SELL (some q) sym prices st).1.holdings
        = st.balance + hsum st.holdings + q * (pd.price - h.avgCost)) := by
  constructor
  · intro hcash hnn
    rw [executeTrade_buy_eq st q sym prices pd hq hpd hp ht hcash]
    cases hold : lookupA st.holdings sym with
    | none =>
      show st.balance - q * pd.price + hsum (updateA st.holdings sym ⟨q, pd.price⟩) = _
      rw [hsum_updateA_none hold]
      show st.balance - q * pd.price + (hsum st.holdings + q * pd.price) = _
      ring
    | some h =>
      have h0 : 0 ≤ h.quantity := hnn h hold
      have hne : h.quantity + q ≠ 0 := ne_of_gt (add_pos_of_nonneg_of_pos h0 hq)
      show st.balance - q * pd.price
          + hsum (updateA st.holdings sym
              ⟨h.quantity + q, (h.avgCost * h.quantity + q * pd.price) / (h.quantity + q)⟩)
        = _
      rw [hsum_updateA_some hold]
      show st.balance - q * pd.price
          + (hsum st.holdings - h.quantity * h.avgCost
             + (h.quantity + q) * ((h.avgCost * h.quantity + q * pd.price) / (h.quantity + q)))
        = _
      rw [mul_comm (h.quantity + q) _, div_mul_cancel₀ _ hne]
      ring
  · intro h hold hge hnd
    rcases lt_or_eq_of_le hge with hlt | heq
    · rw [executeTrade_sell_update_eq st q sym prices pd h hq hpd hp ht hold hlt]
      show st.balance + q * pd.price
          + hsum (updateA st.holdings sym ⟨h.quantity - q, h.avgCost⟩) = _
      rw [hsum_updateA_some hold]
      show st.balance + q * pd.price
          + (hsum st.holdings - h.quantity * h.avgCost + (h.quantity - q) * h.avgCost) = _
      ring
    · rw [executeTrade_sell_remove_eq st q sym prices pd h hq hpd hp ht hold heq.symm]
      show st.balance + q * pd.price + hsum (removeA st.holdings sym) = _
      rw [hsum_removeA hnd hold, ← heq]
      ring

/-- Witness for `c5_conservation_amended`: in a store holding 2 BTC at
average cost 60000 with 50000 cash, buying 1 BTC at 80000 preserves
`cash + Σ quantity*averageCost`, and selling 1 BTC at 80000 raises it by
exactly the realized gain `1*(80000 - 60000)`. -/
theorem c5_conservation_amended_witness :
    (0 : ℚ) < 1 ∧
    lookupA [(("BTC"), (⟨80000, 0, true⟩ : PriceData))] ("BTC")
      = some ⟨80000, 0, true⟩ ∧
    ((⟨80000, 0, true⟩ : PriceData).price ≠ 0) ∧
    ((⟨80000, 0, true⟩ : PriceData).tradeable = true) ∧
    ((executeTrade TxType.SELL (some 1) ("BTC") [(("BTC"), ⟨80000, 0, true⟩)]
        (⟨50000, [(("BTC"), ⟨2, 60000⟩)], []⟩ : Store)).1.balance
      + hsum (executeTrade TxType.SELL (some 1) ("BTC") [(("BTC"), ⟨80000, 0, true⟩)]
        (⟨50000, [(("BTC"), ⟨2, 60000⟩)], []⟩ : Store)).1.holdings
      = (⟨50000, [(("BTC"), ⟨2, 60000⟩)], []⟩ : Store).balance
          + hsum (⟨50000, [(("BTC"), ⟨2, 60000⟩)], []⟩ : Store).holdings
          + 1 * ((⟨80000, 0, true⟩ : PriceData).price - (⟨2, 60000⟩ : Holding).avgCost)) :=
  ⟨by norm_num, by norm_num [lookupA], by norm_num, rfl,
   (c5_conservation_amended (⟨50000, [(("BTC"), ⟨2, 60000⟩)], []⟩ : Store) 1 ("BTC")
       [(("BTC"), ⟨80000, 0, true⟩)] ⟨80000, 0, true⟩
       (by norm_num) (by norm_num [lookupA]) (by norm_num) rfl).2
     ⟨2, 60000⟩ (by norm_num [lookupA]) (by norm_num) (by simp)⟩

/-- C10 counterexample: the call `executeTrade('buy')` with trade amount 0
— a validation failure ("quantity not > 0") — returns silently, surfacing
no error to the caller: it is exactly the silent no-op the claim rules
out. -/
theorem c10_silent_failure_counterexample :
    executeTrade TxType.BUY (some 0) ("BTC")
        [(("BTC"), ⟨50000, 0, true⟩)] initStore
      = (initStore, Outcome.silent) := by
  norm_num [executeTrade]

/-- C10 amended: no failing `executeTrade` call partially applies the
trade (the store is returned unchanged in every failure case), and the
untradeable-symbol, insufficient-cash and insufficient-holdings failures
each surface a synchronous alert; but a missing or non-positive quantity
and a missing or zero price make the call return silently, surfacing no
error. -/
theorem c10_failure_surfacing_amended (ty : TxType) (st : Store) (sym : String)
    (prices : List (String × PriceData)) (q : ℚ) (pd : PriceData) :
    (executeTrade ty none sym prices st = (st, Outcome.silent)) ∧
    (q ≤ 0 → executeTrade ty (some q) sym prices st = (st, Outcome.silent)) ∧
    (0 < q → lookupA prices sym = none →
      executeTrade ty (some q) sym prices st = (st, Outcome.silent)) ∧
    (0 < q → lookupA prices sym = some pd → pd.price = 0 →
      executeTrade ty (some q) sym prices st = (st, Outcome.silent)) ∧
    (0 < q → lookupA prices sym = some pd → pd.price ≠ 0 → pd.tradeable = false →
      executeTrade ty (some q) sym prices st
        = (st, Outcome.alerted alertUntradeable)) ∧
    (0 < q → lookupA prices sym = some pd → pd.price ≠ 0 → pd.tradeable = true →
      st.balance < q * pd.price →
      executeTrade TxType.BUY (some q) sym prices st
        = (st, Outcome.alerted alertInsufficientBalance)) ∧
    (0 < q → lookupA prices sym = some pd → pd.price ≠ 0 → pd.tradeable = true →
      (∀ h : Holding, lookupA st.holdings sym = some h → h.quantity < q) →
      executeTrade TxType.SELL (some q) sym prices st
        = (st, Outcome.alerted alertInsufficientHoldings)) :=
  ⟨executeTrade_amount_none ty sym prices st,
   fun hq => executeTrade_amount_nonpos ty sym prices st q hq,
   fun hq hpd => executeTrade_price_missing ty sym prices st q hq hpd,
   fun hq hpd h0 => executeTrade_price_zero ty sym prices st q pd hq hpd h0,
   fun hq hpd hp htf => executeTrade_untradeable ty sym prices st q pd hq hpd hp htf,
   fun hq hpd hp ht hc => executeTrade_buy_insufficient st q sym prices pd hq hpd hp ht hc,
   fun hq hpd hp ht hins =>
     executeTrade_sell_insufficient st q sym prices pd hq hpd hp ht hins⟩

/-- Witness for `c10_failure_surfacing_amended`: concrete silent failures
(no amount; zero quantity; unknown symbol; zero price), a concrete
untradeable alert, and concrete insufficient-cash and
insufficient-holdings alerts. -/
theorem c10_failure_surfacing_witness :
    (executeTrade TxType.BUY none ("BTC")
        [(("BTC"), ⟨50000, 0, true⟩)] initStore = (initStore, Outcome.silent)) ∧
    (executeTrade TxType.BUY (some 0) ("BTC")
        [(("BTC"), ⟨50000, 0, true⟩)] initStore = (initStore, Outcome.silent)) ∧
    (executeTrade TxType.BUY (some 1) ("DOGE")
        [(("BTC"), ⟨50000, 0, true⟩)] initStore = (initStore, Outcome.silent)) ∧
    (executeTrade TxType.BUY (some 1) ("BTC")
        [(("BTC"), ⟨0, 0, true⟩)] initStore = (initStore, Outcome.silent)) ∧
    (executeTrade TxType.BUY (some 1) ("BTC")
        [(("BTC"), ⟨50000, 0, false⟩)] initStore
      = (initStore, Outcome.alerted alertUntradeable)) ∧
    (executeTrade TxType.BUY (some 1) ("BTC")
        [(("BTC"), ⟨200000, 0, true⟩)] initStore
      = (initStore, Outcome.alerted alertInsufficientBalance)) ∧
    (executeTrade TxType.SELL (some 1) ("BTC")
        [(("BTC"), ⟨50000, 0, true⟩)] initStore
      = (initStore, Outcome.alerted alertInsufficientHoldings)) :=
  ⟨(c10_failure_surfacing_amended TxType.BUY initStore ("BTC")
      [(("BTC"), ⟨50000, 0, true⟩)] 1 ⟨50000, 0, true⟩).1,
   (c10_failure_surfacing_amended TxType.BUY initStore ("BTC")
      [(("BTC"), ⟨50000, 0, true⟩)] 0 ⟨50000, 0, true⟩).2.1 (by norm_num),
   (c10_failure_surfacing_amended TxType.BUY initStore ("DOGE")
      [(("BTC"), ⟨50000, 0, true⟩)] 1 ⟨50000, 0, true⟩).2.2.1
     (by norm_num) (by simp [lookupA]),
   (c10_failure_surfacing_amended TxType.BUY initStore ("BTC")
      [(("BTC"), ⟨0, 0, true⟩)] 1 ⟨0, 0, true⟩).2.2.2.1
     (by norm_num) (by norm_num [lookupA]) rfl,
   (c10_failure_surfacing_amended TxType.BUY initStore ("BTC")
      [(("BTC"), ⟨50000, 0, false⟩)] 1 ⟨50000, 0, false⟩).2.2.2.2.1
     (by norm_num) (by norm_num [lookupA]) (by norm_num) rfl,
   (c10_failure_surfacing_amended TxType.BUY initStore ("BTC")
      [(("BTC"), ⟨200000, 0, true⟩)] 1 ⟨200000, 0, true⟩).2.2.2.2.2.1
     (by norm_num) (by norm_num [lookupA]) (by norm_num) rfl (by norm_num [initStore]),
   (c10_failure_surfacing_amended TxType.SELL initStore ("BTC")
      [(("BTC"), ⟨50000, 0, true⟩)] 1 ⟨50000, 0, true⟩).2.2.2.2.2.2
     (by norm_num) (by norm_num [lookupA]) (by norm_num) rfl
     (by intro h hh; simp [initStore, lookupA] at hh)⟩

/-- The supported instrument catalog: the array literal filtered against
in `fetchCryptoPrices`. -/
def catalog : List String :=
  [("BTC"), ("ETH"), ("SOL"), ("DOGE"), ("ADA"), ("XRP"), ("MATIC"), ("AVAX")]

/-- The `coinIds` mapping from symbol to CoinGecko identifier (only ever
applied to catalog symbols in the source). -/
def coinId : String → String
  | "BTC" => "bitcoin"
  | "ETH" => "ethereum"
  | "SOL" => "solana"
  | "DOGE" => "dogecoin"
  | "ADA" => "cardano"
  | "XRP" => "ripple"
  | "MATIC" => "matic-network"
  | "AVAX" => "avalanche-2"
  | _ => ""

/-- One coin's entry in the quote source's response:
`{ usd, usd_24h_change }` (`none` models an absent change field). -/
structure CoinData where
  usd : ℚ
  usd24hChange : Option ℚ
deriving DecidableEq

/-- The outcome of the batched fetch: a thrown transport error, a non-ok
response, or an ok response carrying data keyed by coin identifier. -/
inductive FetchResult where
  | fail
  | notOk
  | ok (data : List (String × CoinData))
deriving DecidableEq

/-- A per-symbol feed error reason, the strings written into `apiError`. -/
inductive ErrReason where
  | DataUnavailable
  | ApiError
  | NetworkError
deriving DecidableEq

/-- The feed state kept by `useMarketData`: the `prices` map and the
`apiError` map. -/
structure FeedState where
  prices : List (String × PriceData)
  apiError : List (String × ErrReason)
deriving DecidableEq

/-- One poll cycle's input: the requested symbols and the fetch outcome. -/
structure Tick where
  symbols : List String
  result : FetchResult
deriving DecidableEq

/-- The `cryptoSymbols` filter: requested symbols restricted to the
catalog. -/
def cryptoOf (t : Tick) : List String :=
  t.symbols.filter (fun s => catalog.contains s)

/-- The JS truthiness test `data[coinId] && data[coinId].usd`. -/
def dataSuccess (data : List (String × CoinData)) (s : String) : Bool :=
  match lookupA data (coinId s) with
  | some cd => cd.usd != 0
  | none => false

/-- The `newPrices` entry built for a successfully quoted symbol:
`{ price: usd, change: usd_24h_change || 0, tradeable: true }`. -/
def quoteFor (data : List (String × CoinData)) (s : String) : PriceData :=
  match lookupA data (coinId s) with
  | some cd => ⟨cd.usd, cd.usd24hChange.getD 0, true⟩
  | none => ⟨0, 0, true⟩

/-- The `newPrices` object built by the forEach over `cryptoSymbols`. -/
def newPricesOf (data : List (String × CoinData)) : List String → List (String × PriceData)
  | [] => []
  | s :: rest =>
    if dataSuccess data s then (s, quoteFor data s) :: newPricesOf data rest
    else newPricesOf data rest

/-- The `newErrors` object built by the forEach over `cryptoSymbols` for
an ok response: `'Data Unavailable'` for each symbol whose data is
missing or falsy. -/
def newErrorsOf (data : List (String × CoinData)) : List String → List (String × ErrReason)
  | [] => []
  | s :: rest =>
    if dataSuccess data s then newErrorsOf data rest
    else (s, ErrReason.DataUnavailable) :: newErrorsOf data rest

/-- The `newPrices` map produced by one `fetchCryptoPrices` run. -/
def fcpNewPrices (t : Tick) : List (String × PriceData) :=
  match t.result with
  | FetchResult.ok data => newPricesOf data (cryptoOf t)
  | _ => []

/-- The `newErrors` map produced by one `fetchCryptoPrices` run: every
requested catalog symbol gets `'Network Error'` on a thrown fetch,
`'API Error'` on a non-ok response, and `'Data Unavailable'` exactly for
the symbols missing from an ok response. -/
def fcpNewErrors (t : Tick) : List (String × ErrReason) :=
  match t.result with
  | FetchResult.ok data => newErrorsOf data (cryptoOf t)
  | FetchResult.notOk => (cryptoOf t).map (fun s => (s, ErrReason.ApiError))
  | FetchResult.fail => (cryptoOf t).map (fun s => (s, ErrReason.NetworkError))

/-- One `fetchCryptoPrices` state update: the spread merges of `prices`
and `apiError` are performed only under the source's
`Object.keys(newPrices).length > 0` gate. -/
def tick (st : FeedState) (t : Tick) : FeedState :=
  if (fcpNewPrices t).isEmpty then st
  else ⟨mergeA st.prices (fcpNewPrices t), mergeA st.apiError (fcpNewErrors t)⟩

/-- A session: folding poll cycles from the initial empty feed state. -/
def runFeed (ticks : List Tick) : FeedState :=
  ticks.foldl tick ⟨[], []⟩

/-- Whether a tick produced a successful quote for a symbol: the symbol is
a requested catalog symbol and the ok response carries truthy data for
it. -/
def tickSuccess (t : Tick) (s : String) : Bool :=
  match t.result with
  | FetchResult.ok data => (cryptoOf t).contains s && dataSuccess data s
  | _ => false

/-- The quote a successful tick stores for a symbol. -/
def tickQuote (t : Tick) (s : String) : PriceData :=
  match t.result with
  | FetchResult.ok data => quoteFor data s
  | _ => ⟨0, 0, true⟩

theorem isEmpty_false_of_lookupA {α : Type} {l : List (String × α)} {s : String} {v : α}
    (h : lookupA l s = some v) : l.isEmpty = false := by
  cases l with
  | nil => simp [lookupA] at h
  | cons kv rest => rfl

theorem lookupA_newPricesOf_of_success {data : List (String × CoinData)}
    {cs : List String} {s : String} (hmem : s ∈ cs) (hds : dataSuccess data s = true) :
    lookupA (newPricesOf data cs) s = some (quoteFor data s) := by
  induction cs with
  | nil => simp at hmem
  | cons c rest ih =>
    by_cases hc : c = s
    · rw [hc]
      simp [newPricesOf, hds, lookupA]
    · have hmem' : s ∈ rest := by
        rcases List.mem_cons.mp hmem with h | h
        · exact absurd h.symm hc
        · exact h
      by_cases hdc : dataSuccess data c = true
      · simp [newPricesOf, hdc, lookupA, hc, ih hmem']
      · simp [newPricesOf, Bool.eq_false_iff.mpr hdc, ih hmem']

theorem lookupA_newPricesOf_of_not_success {data : List (String × CoinData)}
    {cs : List String} {s : String} (hds : dataSuccess data s = false) :
    lookupA (newPricesOf data cs) s = none := by
  induction cs with
  | nil => rfl
  | cons c rest ih =>
    by_cases hdc : dataSuccess data c = true
    · have hc : c ≠ s := fun e => by rw [e, hds] at hdc; exact Bool.noConfusion hdc
      simp [newPricesOf, hdc, lookupA, hc, ih]
    · simp [newPricesOf, Bool.eq_false_iff.mpr hdc, ih]

theorem lookupA_newPricesOf_of_not_mem {data : List (String × CoinData)}
    {cs : List String} {s : String} (hmem : s ∉ cs) :
    lookupA (newPricesOf data cs) s = none := by
  induction cs with
  | nil => rfl
  | cons c rest ih =>
    have hc : c ≠ s := fun e => hmem (by rw [← e]; exact List.mem_cons_self _ _)
    have hmem' : s ∉ rest := fun hm => hmem (List.mem_cons_of_mem _ hm)
    by_cases hdc : dataSuccess data c = true
    · simp [newPricesOf, hdc, lookupA, hc, ih hmem']
    · simp [newPricesOf, Bool.eq_false_iff.mpr hdc, ih hmem']

theorem mem_newPricesOf {data : List (String × CoinData)} {cs : List String}
    {e : String × PriceData} (h : e ∈ newPricesOf data cs) :
    e.2 = quoteFor data e.1 := by
  induction cs with
  | nil => simp [newPricesOf] at h
  | cons c rest ih =>
    by_cases hdc : dataSuccess data c = true
    · simp [newPricesOf, hdc] at h
      rcases h with h | h
      · rw [h]
      · exact ih h
    · simp [newPricesOf, Bool.eq_false_iff.mpr hdc] at h
      exact ih h

theorem newPricesOf_isEmpty_false {data : List (String × CoinData)} {cs : List String}
    {u : String} (hmem : u ∈ cs) (hds : dataSuccess data u = true) :
    (newPricesOf data cs).isEmpty = false :=
  isEmpty_false_of_lookupA (lookupA_newPricesOf_of_success hmem hds)

theorem lookupA_newErrorsOf_of_failure {data : List (String × CoinData)}
    {cs : List String} {s : String} (hmem : s ∈ cs) (hds : dataSuccess data s = false) :
    lookupA (newErrorsOf data cs) s = some ErrReason.DataUnavailable := by
  induction cs with
  | nil => simp at hmem
  | cons c rest ih =>
    by_cases hc : c = s
    · rw [hc]
      simp [newErrorsOf, hds, lookupA]
    · have hmem' : s ∈ rest := by
        rcases List.mem_cons.mp hmem with h | h
        · exact absurd h.symm hc
        · exact h
      by_cases hdc : dataSuccess data c = true
      · simp [newErrorsOf, hdc, ih hmem']
      · simp [newErrorsOf, Bool.eq_false_iff.mpr hdc, lookupA, hc, ih hmem']

theorem lookupA_newErrorsOf_of_success {data : List (String × CoinData)}
    {cs : List String} {s : String} (hds : dataSuccess data s = true) :
    lookupA (newErrorsOf data cs) s = none := by
  induction cs with
  | nil => rfl
  | cons c rest ih =>
    by_cases hdc : dataSuccess data c = true
    · simp [newErrorsOf, hdc, ih]
    · have hc : c ≠ s := fun e => by rw [e, hds] at hdc; exact hdc rfl
      simp [newErrorsOf, Bool.eq_false_iff.mpr hdc, lookupA, hc, ih]

theorem mem_newErrorsOf {data : List (String × CoinData)} {cs : List String}
    {e : String × ErrReason} (h : e ∈ newErrorsOf data cs) :
    e.2 = ErrReason.DataUnavailable := by
  induction cs with
  | nil => simp [newErrorsOf] at h
  | cons c rest ih =>
    by_cases hdc : dataSuccess data c = true
    · simp [newErrorsOf, hdc] at h
      exact ih h
    · simp [newErrorsOf, Bool.eq_false_iff.mpr hdc] at h
      rcases h with h | h
      · rw [h]
      · exact ih h

theorem fcpNewPrices_lookup_of_success {t : Tick} {s : String}
    (h : tickSuccess t s = true) :
    lookupA (fcpNewPrices t) s = some (tickQuote t s) := by
  cases hres : t.result with
  | fail => simp [tickSuccess, hres] at h
  | notOk => simp [tickSuccess, hres] at h
  | ok data =>
    simp only [tickSuccess, hres, Bool.and_eq_true] at h
    simp only [fcpNewPrices, tickQuote, hres]
    exact lookupA_newPricesOf_of_success (by simpa using h.1) h.2

theorem fcpNewPrices_lookup_of_fail {t : Tick} {s : String}
    (h : tickSuccess t s = false) :
    lookupA (fcpNewPrices t) s = none := by
  cases hres : t.result with
  | fail => simp [fcpNewPrices, hres, lookupA]
  | notOk => simp [fcpNewPrices, hres, lookupA]
  | ok data =>
    simp only [tickSuccess, hres, Bool.and_eq_false_iff] at h
    simp only [fcpNewPrices, hres]
    rcases h with h | h
    · exact lookupA_newPricesOf_of_not_mem (by simpa using h)
    · exact lookupA_newPricesOf_of_not_success (by simpa using h)

theorem fcpNewPrices_isEmpty_false {t : Tick} {s : String}
    (h : tickSuccess t s = true) : (fcpNewPrices t).isEmpty = false :=
  isEmpty_false_of_lookupA (fcpNewPrices_lookup_of_success h)

theorem tick_prices_lookup_of_success {st : FeedState} {t : Tick} {s : String}
    (h : tickSuccess t s = true) :
    lookupA (tick st t).prices s = some (tickQuote t s) := by
  rw [tick, if_neg (by rw [fcpNewPrices_isEmpty_false h]; exact Bool.false_ne_true)]
  have huniq : ∀ w, (s, w) ∈ fcpNewPrices t → w = tickQuote t s := by
    intro w hw
    cases hres : t.result with
    | fail => rw [fcpNewPrices, hres] at hw; simp at hw
    | notOk => rw [fcpNewPrices, hres] at hw; simp at hw
    | ok data =>
      rw [fcpNewPrices, hres] at hw
      rw [tickQuote, hres]
      exact mem_newPricesOf hw
  exact lookupA_mergeA_of_unique _ _ _ _ (fcpNewPrices_lookup_of_success h) huniq

theorem tick_prices_lookup_of_fail {st : FeedState} {t : Tick} {s : String}
    (h : tickSuccess t s = false) :
    lookupA (tick st t).prices s = lookupA st.prices s := by
  rw [tick]
  by_cases he : (fcpNewPrices t).isEmpty = true
  · rw [if_pos he]
  · rw [if_neg he]
    exact lookupA_mergeA_of_none _ _ _ (fcpNewPrices_lookup_of_fail h)

theorem tick_apiError_lookup_of_success {st : FeedState} {t : Tick} {s : String}
    (h : tickSuccess t s = true) :
    lookupA (tick st t).apiError s = lookupA st.apiError s := by
  rw [tick, if_neg (by rw [fcpNewPrices_isEmpty_false h]; exact Bool.false_ne_true)]
  cases hres : t.result with
  | fail => simp [tickSuccess, hres] at h
  | notOk => simp [tickSuccess, hres] at h
  | ok data =>
    simp only [tickSuccess, hres, Bool.and_eq_true] at h
    have : lookupA (fcpNewErrors t) s = none := by
      rw [fcpNewErrors, hres]
      exact lookupA_newErrorsOf_of_success h.2
    exact lookupA_mergeA_of_none _ _ _ this

/-- All price entries ever stored by the feed carry `tradeable = true`. -/
def allTradeable (ps : List (String × PriceData)) : Prop :=
  ∀ e ∈ ps, (Prod.snd e).tradeable = true

theorem allTradeable_tick {st : FeedState} (t : Tick)
    (h : allTradeable st.prices) : allTradeable (tick st t).prices := by
  rw [tick]
  by_cases he : (fcpNewPrices t).isEmpty = true
  · rw [if_pos he]; exact h
  · rw [if_neg he]
    intro e hmem
    rcases mem_mergeA hmem with h' | h'
    · exact h e h'
    · cases hres : t.result with
      | fail => rw [fcpNewPrices, hres] at h'; simp at h'
      | notOk => rw [fcpNewPrices, hres] at h'; simp at h'
      | ok data =>
        rw [fcpNewPrices, hres] at h'
        rw [mem_newPricesOf h', quoteFor]
        cases lookupA data (coinId e.1) <;> rfl

theorem canTrade_eq_isSome {ps : List (String × PriceData)} {s : String}
    (h : allTradeable ps) : canTrade ps s = (lookupA ps s).isSome := by
  rw [canTrade]
  cases hl : lookupA ps s with
  | none => rfl
  | some pd =>
    have : pd.tradeable = true := h _ (lookupA_mem hl)
    simp [this]

theorem canTrade_tick {st : FeedState} (t : Tick) (s : String)
    (h : allTradeable st.prices) :
    canTrade (tick st t).prices s = (canTrade st.prices s || tickSuccess t s) := by
  rw [canTrade_eq_isSome (allTradeable_tick t h), canTrade_eq_isSome h]
  cases hts : tickSuccess t s with
  | true => rw [tick_prices_lookup_of_success hts]; simp
  | false => rw [tick_prices_lookup_of_fail hts]; simp

theorem canTrade_foldFeed (ts : List Tick) (st : FeedState) (s : String)
    (h : allTradeable st.prices) :
    canTrade (ts.foldl tick st).prices s
      = (canTrade st.prices s || ts.any (fun t => tickSuccess t s)) := by
  induction ts generalizing st with
  | nil => simp
  | cons t rest ih =>
    rw [List.foldl_cons, ih (tick st t) (allTradeable_tick t h), canTrade_tick t s h,
      List.any_cons, Bool.or_assoc]

/-- C6 counterexample: a session whose first tick quotes BTC successfully
and whose second (most recent) tick fails entirely.  The most recent tick
produced no successful quote for BTC, yet `canTrade` still reports BTC as
tradeable — the stored `tradeable: true` entry is never revoked — so
"tradeable iff the most recent tick produced a successful quote" is false
on the code. -/
theorem c6_tradeable_counterexample :
    tickSuccess ⟨[("BTC")], FetchResult.fail⟩ ("BTC") = false ∧
    canTrade (runFeed
      [⟨[("BTC")], FetchResult.ok [(("bitcoin"), ⟨50000, some 2⟩)]⟩,
       ⟨[("BTC")], FetchResult.fail⟩]).prices ("BTC") = true := by
  constructor
  · rfl
  · norm_num [runFeed, tick, fcpNewPrices, fcpNewErrors, newPricesOf, newErrorsOf,
      dataSuccess, quoteFor, cryptoOf, catalog, coinId, mergeA, updateA, lookupA,
      canTrade]

/-- C6 amended: in any session from the empty feed state, a symbol is
tradeable iff SOME tick of the session (not necessarily the most recent
one) produced a successful quote for it; and a tick that does not quote
the symbol successfully leaves its cached price entry unchanged (stale
price retained for display — and with it, tradeability). -/
theorem c6_tradeable_amended (ticks : List Tick) (s : String) (st : FeedState)
    (t : Tick) (hfail : tickSuccess t s = false) :
    (canTrade (runFeed ticks).prices s = true ↔ ∃ u ∈ ticks, tickSuccess u s = true) ∧
    lookupA (tick st t).prices s = lookupA st.prices s := by
  constructor
  · rw [runFeed, canTrade_foldFeed ticks ⟨[], []⟩ s
      (fun e he => absurd he (List.not_mem_nil e))]
    have h0 : canTrade (⟨[], []⟩ : FeedState).prices s = false := rfl
    rw [h0, Bool.false_or, List.any_eq_true]
  · exact tick_prices_lookup_of_fail hfail

/-- Witness for `c6_tradeable_amended`: a failing tick leaves the cached
BTC price (from a previous successful tick) in place. -/
theorem c6_tradeable_amended_witness :
    tickSuccess ⟨[("BTC")], FetchResult.fail⟩ ("BTC") = false ∧
    lookupA (tick ⟨[(("BTC"), ⟨50000, 2, true⟩)], []⟩
        ⟨[("BTC")], FetchResult.fail⟩).prices ("BTC")
      = lookupA (⟨[(("BTC"), ⟨50000, 2, true⟩)], []⟩ : FeedState).prices ("BTC") :=
  ⟨rfl,
   (c6_tradeable_amended [] ("BTC") ⟨[(("BTC"), ⟨50000, 2, true⟩)], []⟩
     ⟨[("BTC")], FetchResult.fail⟩ rfl).2⟩

/-- C7 counterexample: a tick over requested symbol BTC whose batched
request fails at the transport layer computes a NetworkError for BTC in
`newErrors`, but — because the state update is gated on
`Object.keys(newPrices).length > 0` — the session state is left completely
unchanged: no NetworkError is recorded for the requested symbol. -/
theorem c7_total_failure_counterexample :
    lookupA (fcpNewErrors ⟨[("BTC")], FetchResult.fail⟩) ("BTC")
      = some ErrReason.NetworkError ∧
    runFeed [⟨[("BTC")], FetchResult.fail⟩] = ⟨[], []⟩ := by
  constructor
  · rfl
  · rfl

/-- C7 amended: a tick whose fetch throws (NetworkError case) or returns a
non-ok response (ApiError case) computes those per-symbol errors but skips
the state merge entirely, leaving the feed state unchanged; an ok response
that is missing one requested symbol's data — while some other requested
symbol succeeds — records DataUnavailable for exactly the missing symbol
and stores the successful symbols' quotes; errors are per-symbol values,
never thrown, and the tick is a total function. -/
theorem c7_tick_error_recording_amended (st : FeedState) (t : Tick) (s u : String)
    (data : List (String × CoinData)) :
    ((t.result = FetchResult.fail ∨ t.result = FetchResult.notOk) → tick st t = st) ∧
    (t.result = FetchResult.ok data → s ∈ cryptoOf t → u ∈ cryptoOf t →
      dataSuccess data u = true →
      (dataSuccess data s = false →
        lookupA (tick st t).apiError s = some ErrReason.DataUnavailable) ∧
      (dataSuccess data s = true →
        lookupA (tick st t).prices s = some (quoteFor data s))) := by
  constructor
  · intro hres
    rcases hres with hres | hres <;> simp [tick, fcpNewPrices, hres]
  · intro hok hs hu hdu
    have hne : (fcpNewPrices t).isEmpty = false := by
      simp only [fcpNewPrices, hok]
      exact newPricesOf_isEmpty_false hu hdu
    constructor
    · intro hds
      rw [tick, if_neg (by rw [hne]; exact Bool.false_ne_true)]
      have hlk : lookupA (fcpNewErrors t) s = some ErrReason.DataUnavailable := by
        simp only [fcpNewErrors, hok]
        exact lookupA_newErrorsOf_of_failure hs hds
      have huniq : ∀ w, (s, w) ∈ fcpNewErrors t → w = ErrReason.DataUnavailable := by
        simp only [fcpNewErrors, hok]
        intro w hw
        exact mem_newErrorsOf hw
      exact lookupA_mergeA_of_unique _ _ _ _ hlk huniq
    · intro hds
      have hts : tickSuccess t s = true := by
        simp only [tickSuccess, hok, Bool.and_eq_true]
        exact ⟨by simpa using hs, hds⟩
      have := @tick_prices_lookup_of_success st t s hts
      rw [this]
      simp [tickQuote, hok]

/-- Witness for `c7_tick_error_recording_amended`: a thrown fetch leaves
the state unchanged; an ok response over requested {BTC, ETH} carrying
only ethereum data records DataUnavailable for BTC and stores ETH's
quote. -/
theorem c7_tick_error_recording_witness :
    (tick ⟨[], []⟩ ⟨[("BTC")], FetchResult.fail⟩ = ⟨[], []⟩) ∧
    (lookupA (tick ⟨[], []⟩
        ⟨[("BTC"), ("ETH")], FetchResult.ok [(("ethereum"), ⟨3000, none⟩)]⟩).apiError
        ("BTC") = some ErrReason.DataUnavailable) ∧
    (lookupA (tick ⟨[], []⟩
        ⟨[("BTC"), ("ETH")], FetchResult.ok [(("ethereum"), ⟨3000, none⟩)]⟩).prices
        ("ETH")
      = some (quoteFor [(("ethereum"), ⟨3000, none⟩)] ("ETH"))) :=
  ⟨(c7_tick_error_recording_amended ⟨[], []⟩ ⟨[("BTC")], FetchResult.fail⟩
      ("BTC") ("BTC") []).1 (Or.inl rfl),
   ((c7_tick_error_recording_amended ⟨[], []⟩
      ⟨[("BTC"), ("ETH")], FetchResult.ok [(("ethereum"), ⟨3000, none⟩)]⟩
      ("BTC") ("ETH") [(("ethereum"), ⟨3000, none⟩)]).2 rfl
     (by simp [cryptoOf, catalog]) (by simp [cryptoOf, catalog])
     (by simp [dataSuccess, lookupA, coinId])).1
     (by simp [dataSuccess, lookupA, coinId]),
   ((c7_tick_error_recording_amended ⟨[], []⟩
      ⟨[("BTC"), ("ETH")], FetchResult.ok [(("ethereum"), ⟨3000, none⟩)]⟩
      ("ETH") ("ETH") [(("ethereum"), ⟨3000, none⟩)]).2 rfl
     (by simp [cryptoOf, catalog]) (by simp [cryptoOf, catalog])
     (by simp [dataSuccess, lookupA, coinId])).2
     (by simp [dataSuccess, lookupA, coinId])⟩

/-- C8 counterexample: tick 1 over {BTC, ETH} succeeds for ETH but has no
BTC data, recording DataUnavailable for BTC; tick 2 succeeds for both
symbols.  The fresh successful BTC quote does NOT clear the recorded
error: `apiError` still maps BTC to DataUnavailable after tick 2, so "any
previously recorded error is cleared at that moment" is false on the
code. -/
theorem c8_error_not_cleared_counterexample :
    tickSuccess ⟨[("BTC"), ("ETH")], FetchResult.ok
        [(("bitcoin"), ⟨50000, none⟩), (("ethereum"), ⟨3100, none⟩)]⟩ ("BTC") = true ∧
    lookupA (runFeed
      [⟨[("BTC"), ("ETH")], FetchResult.ok [(("ethereum"), ⟨3000, none⟩)]⟩,
       ⟨[("BTC"), ("ETH")], FetchResult.ok
         [(("bitcoin"), ⟨50000, none⟩), (("ethereum"), ⟨3100, none⟩)]⟩]).apiError
      ("BTC") = some ErrReason.DataUnavailable := by
  constructor
  · norm_num [tickSuccess, cryptoOf, catalog, dataSuccess, lookupA, coinId]
  · norm_num [runFeed, tick, fcpNewPrices, fcpNewErrors, newPricesOf, newErrorsOf,
      dataSuccess, quoteFor, cryptoOf, catalog, coinId, mergeA, updateA, lookupA]

/-- C8 amended: recorded errors persist across successful quotes — a tick
that produces a successful quote for a symbol leaves that symbol's entry
in the `apiError` map exactly as it was (the merge only ever overwrites
with new errors, never deletes), so an error is replaced only by a later
error for the same symbol, not cleared by success. -/
theorem c8_error_persists_amended (st : FeedState) (t : Tick) (s : String)
    (h : tickSuccess t s = true) :
    lookupA (tick st t).apiError s = lookupA st.apiError s :=
  tick_apiError_lookup_of_success h

/-- Witness for `c8_error_persists_amended`: a successful BTC tick leaves
a previously recorded BTC DataUnavailable error in place. -/
theorem c8_error_persists_witness :
    tickSuccess ⟨[("BTC")], FetchResult.ok [(("bitcoin"), ⟨50000, none⟩)]⟩ ("BTC")
      = true ∧
    lookupA (tick ⟨[], [(("BTC"), ErrReason.DataUnavailable)]⟩
        ⟨[("BTC")], FetchResult.ok [(("bitcoin"), ⟨50000, none⟩)]⟩).apiError ("BTC")
      = lookupA (⟨[], [(("BTC"), ErrReason.DataUnavailable)]⟩ : FeedState).apiError
          ("BTC") :=
  ⟨by simp [tickSuccess, cryptoOf, catalog, dataSuccess, lookupA, coinId],
   c8_error_persists_amended ⟨[], [(("BTC"), ErrReason.DataUnavailable)]⟩
     ⟨[("BTC")], FetchResult.ok [(("bitcoin"), ⟨50000, none⟩)]⟩ ("BTC")
     (by simp [tickSuccess, cryptoOf, catalog, dataSuccess, lookupA, coinId])⟩

/-- A chart point: `{ time, price, timestamp }` in the source (`time` is a
display string, `timestamp` the epoch milliseconds). -/
structure HistoryPoint where
  time : String
  price : ℚ
  timestamp : ℕ
deriving DecidableEq

/-- JS `arr.slice(-n)`: the last `n` elements (the whole array when it is
shorter). -/
def sliceLast {α : Type} (n : ℕ) (l : List α) : List α :=
  l.drop (l.length - n)

/-- One per-symbol chart update from the source's chart effect:
`[...existing, newPoint].slice(-100)`, guarded by `priceData.price > 0`. -/
def chartStep (l : List HistoryPoint) (pd : PriceData) (tm : String) (now : ℕ) :
    List HistoryPoint :=
  if pd.price > 0 then sliceLast 100 (l ++ [⟨tm, pd.price, now⟩]) else l

/-- A symbol's chart series after a session of updates, from the empty
series. -/
def runChart (ups : List (PriceData × String × ℕ)) : List HistoryPoint :=
  ups.foldl (fun l u => chartStep l u.1 u.2.1 u.2.2) []

theorem sliceLast_length {α : Type} (n : ℕ) (l : List α) :
    (sliceLast n l).length = min n l.length := by
  rw [sliceLast, List.length_drop]
  omega

theorem chartStep_length_le (l : List HistoryPoint) (pd : PriceData) (tm : String)
    (now : ℕ) (h : l.length ≤ 100) : (chartStep l pd tm now).length ≤ 100 := by
  rw [chartStep]
  by_cases hp : pd.price > 0
  · rw [if_pos hp, sliceLast_length]
    omega
  · rw [if_neg hp]
    exact h

theorem runChart_length_le (ups : List (PriceData × String × ℕ)) :
    (runChart ups).length ≤ 100 := by
  suffices hgen : ∀ l : List HistoryPoint, l.length ≤ 100 →
      (ups.foldl (fun l u => chartStep l u.1 u.2.1 u.2.2) l).length ≤ 100 by
    exact hgen [] (by simp)
  induction ups with
  | nil => intro l hl; exact hl
  | cons u rest ih =>
    intro l hl
    exact ih _ (chartStep_length_le l u.1 u.2.1 u.2.2 hl)

/-- C9: the price-history buffer never exceeds 100 points in any session
from the empty series; appending a 101st point to a full buffer of 100
evicts exactly the oldest point, leaving the remaining 100 in their
original relative order with the new point at the end; and a quote with
non-positive price appends nothing. -/
theorem c9_history_buffer (ups : List (PriceData × String × ℕ))
    (l l' : List HistoryPoint) (pd pd' : PriceData) (tm tm' : String) (now now' : ℕ)
    (hlen : l.length = 100) (hpos : 0 < pd.price) (hnpos : ¬ 0 < pd'.price) :
    ((runChart ups).length ≤ 100) ∧
    (chartStep l pd tm now = l.drop 1 ++ [⟨tm, pd.price, now⟩]) ∧
    ((chartStep l pd tm now).length = 100) ∧
    (chartStep l' pd' tm' now' = l') := by
  have hstep : chartStep l pd tm now = l.drop 1 ++ [⟨tm, pd.price, now⟩] := by
    rw [chartStep, if_pos hpos, sliceLast]
    have hlen2 : (l ++ [(⟨tm, pd.price, now⟩ : HistoryPoint)]).length = 101 := by
      simp [hlen]
    rw [hlen2]
    show (l ++ [(⟨tm, pd.price, now⟩ : HistoryPoint)]).drop 1 = _
    rw [List.drop_append_eq_append_drop]
    simp [hlen]
  refine ⟨runChart_length_le ups, hstep, ?_, ?_⟩
  · rw [hstep]
    simp [hlen]
  · rw [chartStep, if_neg hnpos]

/-- Witness for `c9_history_buffer`: a full buffer of 100 identical points
receives a 101st point, evicting the single oldest point; a zero-priced
quote leaves a one-point buffer untouched. -/
theorem c9_history_buffer_witness :
    ((List.replicate 100 (⟨("t0"), 1, 0⟩ : HistoryPoint)).length = 100) ∧
    ((0 : ℚ) < (⟨50000, 0, true⟩ : PriceData).price) ∧
    (¬ (0 : ℚ) < (⟨0, 0, true⟩ : PriceData).price) ∧
    ((runChart [(⟨50000, 0, true⟩, ("t1"), 1)]).length ≤ 100) ∧
    (chartStep (List.replicate 100 (⟨("t0"), 1, 0⟩ : HistoryPoint))
        ⟨50000, 0, true⟩ ("t1") 1
      = (List.replicate 100 (⟨("t0"), 1, 0⟩ : HistoryPoint)).drop 1
          ++ [⟨("t1"), (⟨50000, 0, true⟩ : PriceData).price, 1⟩]) ∧
    ((chartStep (List.replicate 100 (⟨("t0"), 1, 0⟩ : HistoryPoint))
        ⟨50000, 0, true⟩ ("t1") 1).length = 100) ∧
    (chartStep [(⟨("t0"), 1, 0⟩ : HistoryPoint)] ⟨0, 0, true⟩ ("t1") 1
      = [(⟨("t0"), 1, 0⟩ : HistoryPoint)]) :=
  ⟨by simp, by norm_num, by norm_num,
   (c9_history_buffer [(⟨50000, 0, true⟩, ("t1"), 1)]
      (List.replicate 100 (⟨("t0"), 1, 0⟩ : HistoryPoint))
      [(⟨("t0"), 1, 0⟩ : HistoryPoint)] ⟨50000, 0, true⟩ ⟨0, 0, true⟩
      ("t1") ("t1") 1 1 (by simp) (by norm_num) (by norm_num)).1,
   (c9_history_buffer [(⟨50000, 0, true⟩, ("t1"), 1)]
      (List.replicate 100 (⟨("t0"), 1, 0⟩ : HistoryPoint))
      [(⟨("t0"), 1, 0⟩ : HistoryPoint)] ⟨50000, 0, true⟩ ⟨0, 0, true⟩
      ("t1") ("t1") 1 1 (by simp) (by norm_num) (by norm_num)).2.1,
   (c9_history_buffer [(⟨50000, 0, true⟩, ("t1"), 1)]
      (List.replicate 100 (⟨("t0"), 1, 0⟩ : HistoryPoint))
      [(⟨("t0"), 1, 0⟩ : HistoryPoint)] ⟨50000, 0, true⟩ ⟨0, 0, true⟩
      ("t1") ("t1") 1 1 (by simp) (by norm_num) (by norm_num)).2.2.1,
   (c9_history_buffer [(⟨50000, 0, true⟩, ("t1"), 1)]
      (List.replicate 100 (⟨("t0"), 1, 0⟩ : HistoryPoint))
      [(⟨("t0"), 1, 0⟩ : HistoryPoint)] ⟨50000, 0, true⟩ ⟨0, 0, true⟩
      ("t1") ("t1") 1 1 (by simp) (by norm_num) (by norm_num)).2.2.2⟩

end PaperTrading
